import Mathlib

/-!
Shallow embedding of the balance-change pipeline of the `vibe` repository
(scripts/parse-balance-changes.ts, scripts/fix-duplicate-patches.ts,
scripts/find-duplicate-patches.ts) together with theorems settling the
frozen claims about it.

Strings are modelled as `List Char`.  JavaScript number arithmetic is
modelled in exact rationals (`ℚ`); a JS `NaN` is modelled as `none` in
`Option ℚ`.
-/

namespace Vibe

/-- A string, modelled as a list of characters. -/
abbrev Str := List Char

/-- `ChangeType` from src/types/patch.ts: direction of a change. -/
inductive ChangeType where
  | buff
  | nerf
  | mixed
deriving DecidableEq, Repr

/-- `ChangeCategory` from src/types/patch.ts. -/
inductive ChangeCategory where
  | numeric
  | mechanic
  | added
  | removed
  | unknown
deriving DecidableEq, Repr

/-- The `Change` tagged union from src/types/patch.ts:
a numeric before/after change or a free-text description change.
The description variant's category ranges over the non-numeric categories. -/
inductive Change where
  | numeric (target stat before after : Str) (changeType : ChangeType)
  | description (target description : Str) (changeType : ChangeType)
      (changeCategory : ChangeCategory)
deriving DecidableEq, Repr

/-- The `changeType` field common to both variants of `Change`. -/
def Change.changeType : Change → ChangeType
  | .numeric _ _ _ _ t => t
  | .description _ _ t _ => t

/-- `PatchEntry` from src/types/patch.ts.  Histories are stored
newest-first; the aggregators reverse them to chronological order. -/
structure PatchEntry where
  patchId : Nat
  patchVersion : Str
  patchDate : Str
  overallChange : ChangeType
  streak : Nat
  devComment : Option Str
  changes : List Change
deriving DecidableEq, Repr

/-- The `currentStreak` record inside `CharacterStats`. -/
structure CurrentStreak where
  type : Option ChangeType
  count : Nat
deriving DecidableEq, Repr

/-- `CharacterStats` from src/types/patch.ts. -/
structure CharacterStats where
  totalPatches : Nat
  buffCount : Nat
  nerfCount : Nat
  mixedCount : Nat
  currentStreak : CurrentStreak
  maxBuffStreak : Nat
  maxNerfStreak : Nat
deriving DecidableEq, Repr

/-- Loop state of `calculateStats` (scripts/parse-balance-changes.ts,
lines 902-949): the mutable counters and the running streak variables. -/
structure StatsAcc where
  buffCount : Nat
  nerfCount : Nat
  mixedCount : Nat
  maxBuffStreak : Nat
  maxNerfStreak : Nat
  curType : Option ChangeType
  curCount : Nat
deriving DecidableEq, Repr

/-- Initial loop state of `calculateStats`. -/
def statsInit : StatsAcc :=
  { buffCount := 0, nerfCount := 0, mixedCount := 0,
    maxBuffStreak := 0, maxNerfStreak := 0, curType := none, curCount := 0 }

/-- The streak part of one `calculateStats` loop iteration for a
buff/nerf entry `c`: extend a matching run, or flush the pending run
into the max-streak fields and start a new run of length 1. -/
def streakUpd (s : StatsAcc) (c : ChangeType) : StatsAcc :=
  if s.curType = some c then
    { s with curCount := s.curCount + 1 }
  else
    { s with
      maxBuffStreak :=
        if s.curType = some ChangeType.buff then max s.maxBuffStreak s.curCount
        else s.maxBuffStreak,
      maxNerfStreak :=
        if s.curType = some ChangeType.nerf then max s.maxNerfStreak s.curCount
        else s.maxNerfStreak,
      curType := some c,
      curCount := 1 }

/-- One iteration of the `for (const patch of chronological)` loop of
`calculateStats`: bump the direction counter; then, for a buff/nerf entry
only, update the running streak.  A `mixed` entry leaves the streak
variables untouched. -/
def statsStep (s : StatsAcc) (c : ChangeType) : StatsAcc :=
  match c with
  | .buff => streakUpd { s with buffCount := s.buffCount + 1 } ChangeType.buff
  | .nerf => streakUpd { s with nerfCount := s.nerfCount + 1 } ChangeType.nerf
  | .mixed => { s with mixedCount := s.mixedCount + 1 }

/-- `calculateStats` (scripts/parse-balance-changes.ts, lines 902-949).
The input history is newest-first and is reversed to chronological
order; after the loop the pending run is flushed into the max-streak
fields and the running pair becomes `currentStreak`. -/
def calculateStats (patchHistory : List PatchEntry) : CharacterStats :=
  if patchHistory.isEmpty then
    { totalPatches := patchHistory.length, buffCount := 0, nerfCount := 0,
      mixedCount := 0, currentStreak := ⟨none, 0⟩,
      maxBuffStreak := 0, maxNerfStreak := 0 }
  else
    let acc := patchHistory.reverse.foldl (fun s p => statsStep s p.overallChange) statsInit
    { totalPatches := patchHistory.length,
      buffCount := acc.buffCount,
      nerfCount := acc.nerfCount,
      mixedCount := acc.mixedCount,
      maxBuffStreak :=
        if acc.curType = some ChangeType.buff then max acc.maxBuffStreak acc.curCount
        else acc.maxBuffStreak,
      maxNerfStreak :=
        if acc.curType = some ChangeType.nerf then max acc.maxNerfStreak acc.curCount
        else acc.maxNerfStreak,
      currentStreak := ⟨acc.curType, acc.curCount⟩ }

/-- The loop of `calculateStreaks` (scripts/parse-balance-changes.ts,
lines 951-973), processing the chronological list while threading the
running streak variables: a buff/nerf entry extends or restarts the run
and is stamped with the new count; any other entry is stamped with
streak 1 and leaves the running variables unchanged. -/
def streaksGo (t : Option ChangeType) (n : Nat) : List PatchEntry → List PatchEntry
  | [] => []
  | p :: ps =>
    match p.overallChange with
    | ChangeType.buff =>
      if t = some ChangeType.buff then
        { p with streak := n + 1 } :: streaksGo t (n + 1) ps
      else
        { p with streak := 1 } :: streaksGo (some ChangeType.buff) 1 ps
    | ChangeType.nerf =>
      if t = some ChangeType.nerf then
        { p with streak := n + 1 } :: streaksGo t (n + 1) ps
      else
        { p with streak := 1 } :: streaksGo (some ChangeType.nerf) 1 ps
    | ChangeType.mixed => { p with streak := 1 } :: streaksGo t n ps

/-- `calculateStreaks` (scripts/parse-balance-changes.ts, lines 951-973):
reverse the newest-first history to chronological order, stamp each
entry's `streak`, and reverse back. -/
def calculateStreaks (patchHistory : List PatchEntry) : List PatchEntry :=
  (streaksGo none 0 patchHistory.reverse).reverse

/-- The streak-state transition described by the amended claim C1: a
`mixed` entry leaves the running `(type, count)` pair unchanged, a
buff/nerf entry extends a matching run by one and otherwise starts a
new run of length 1. -/
def streakRunStep (s : Option ChangeType × Nat) (c : ChangeType) :
    Option ChangeType × Nat :=
  match c with
  | .mixed => s
  | c => if s.1 = some c then (s.1, s.2 + 1) else (some c, 1)

/-- A patch entry with the given id and overall direction and all other
fields trivial; used to build concrete histories in scenario theorems. -/
def mkEntry (pid : Nat) (oc : ChangeType) : PatchEntry :=
  { patchId := pid, patchVersion := [], patchDate := [], overallChange := oc,
    streak := 0, devComment := none, changes := [] }

/-- Setting the `streak` field to zero; two entries agree on every field
except `streak` exactly when `eraseStreak` maps them to the same entry. -/
def eraseStreak (p : PatchEntry) : PatchEntry := { p with streak := 0 }

lemma statsStep_counts (s : StatsAcc) (c : ChangeType) :
    (statsStep s c).buffCount + (statsStep s c).nerfCount + (statsStep s c).mixedCount
      = s.buffCount + s.nerfCount + s.mixedCount + 1 := by
  cases c
  · simp only [statsStep, streakUpd]; split <;> simp <;> omega
  · simp only [statsStep, streakUpd]; split <;> simp <;> omega
  · simp only [statsStep]; omega

lemma statsFold_counts (l : List PatchEntry) :
    ∀ s : StatsAcc,
      (l.foldl (fun s p => statsStep s p.overallChange) s).buffCount
        + (l.foldl (fun s p => statsStep s p.overallChange) s).nerfCount
        + (l.foldl (fun s p => statsStep s p.overallChange) s).mixedCount
      = s.buffCount + s.nerfCount + s.mixedCount + l.length := by
  induction l with
  | nil => intro s; simp
  | cons p ps ih =>
    intro s
    simp only [List.foldl_cons, List.length_cons]
    rw [ih]
    have := statsStep_counts s p.overallChange
    omega

lemma statsStep_run (s : StatsAcc) (c : ChangeType) :
    ((statsStep s c).curType, (statsStep s c).curCount)
      = streakRunStep (s.curType, s.curCount) c := by
  cases c <;> simp only [statsStep, streakUpd, streakRunStep] <;> split <;> simp_all

lemma statsFold_run (l : List ChangeType) :
    ∀ s : StatsAcc,
      ((l.foldl statsStep s).curType, (l.foldl statsStep s).curCount)
        = l.foldl streakRunStep (s.curType, s.curCount) := by
  induction l with
  | nil => intro s; rfl
  | cons c cs ih =>
    intro s
    simp only [List.foldl_cons]
    rw [ih, statsStep_run]

lemma foldl_statsStep_map (l : List PatchEntry) (s : StatsAcc) :
    l.foldl (fun s p => statsStep s p.overallChange) s
      = (l.map PatchEntry.overallChange).foldl statsStep s := by
  induction l generalizing s with
  | nil => rfl
  | cons p ps ih => simp only [List.foldl_cons, List.map_cons]; rw [ih]

/-- C8. For every patch history, `totalPatches` equals the history
length and the three direction counters partition it:
`buffCount + nerfCount + mixedCount = totalPatches`. -/
theorem calculateStats_counts (h : List PatchEntry) :
    (calculateStats h).totalPatches = h.length ∧
      (calculateStats h).buffCount + (calculateStats h).nerfCount
        + (calculateStats h).mixedCount = (calculateStats h).totalPatches := by
  unfold calculateStats
  split
  · rename_i he
    have hnil : h = [] := List.isEmpty_iff.mp he
    subst hnil
    simp
  · refine ⟨rfl, ?_⟩
    simp only []
    rw [statsFold_counts]
    simp [statsInit]

/-- C9. For every patch history, when the current streak is a buff run
the max buff streak is at least the current count, and symmetrically
for nerf runs. -/
theorem calculateStats_maxStreak_ge_current (h : List PatchEntry) :
    ((calculateStats h).currentStreak.type = some ChangeType.buff →
        (calculateStats h).currentStreak.count ≤ (calculateStats h).maxBuffStreak) ∧
      ((calculateStats h).currentStreak.type = some ChangeType.nerf →
        (calculateStats h).currentStreak.count ≤ (calculateStats h).maxNerfStreak) := by
  unfold calculateStats
  split
  · simp
  · constructor
    · intro ht
      simp only [] at ht ⊢
      rw [ht]
      simp
    · intro ht
      simp only [] at ht ⊢
      rw [ht]
      simp

/-- Witness for C9 at the one-entry history `[buff]`: the current streak
is a buff run of length 1 and `maxBuffStreak = 1 ≥ 1`. -/
theorem calculateStats_maxStreak_ge_current_witness :
    (calculateStats [mkEntry 1 ChangeType.buff]).currentStreak.count
      ≤ (calculateStats [mkEntry 1 ChangeType.buff]).maxBuffStreak :=
  (calculateStats_maxStreak_ge_current [mkEntry 1 ChangeType.buff]).1 (by decide)

/-- Counterexample to C1 as stated.  In `calculateStats` a `mixed` entry
does not reset the running streak state: for the chronological history
`[buff, mixed]` (stored newest-first) the final `currentStreak` is
`{buff, 1}`, not `{null, 0}`; and for `[buff, mixed, buff]` the
`calculateStreaks` stamps are `[1, 1, 2]` chronologically — the entry
after the `mixed` continues the run at 2 instead of restarting at 1. -/
theorem calculateStats_mixed_reset_counterexample :
    (calculateStats [mkEntry 2 ChangeType.mixed, mkEntry 1 ChangeType.buff]).currentStreak
        ≠ ⟨none, 0⟩ ∧
      (calculateStats [mkEntry 2 ChangeType.mixed, mkEntry 1 ChangeType.buff]).currentStreak
        = ⟨some ChangeType.buff, 1⟩ ∧
      (calculateStreaks [mkEntry 3 ChangeType.buff, mkEntry 2 ChangeType.mixed,
          mkEntry 1 ChangeType.buff]).reverse.map PatchEntry.streak = [1, 1, 2] := by
  decide

/-- C1 (amended).  In the stats aggregation over a chronologically
processed history, a `mixed` entry leaves the running streak state
unchanged (it is skipped, not reset), while a `buff`/`nerf` entry
extends a matching run by 1 and otherwise starts a new run of length 1:
`currentStreak` is exactly the fold of this skip-mixed transition over
the chronological sequence of `overallChange` values. -/
theorem calculateStats_mixed_skip (h : List PatchEntry) :
    (calculateStats h).currentStreak =
      ⟨((h.reverse.map PatchEntry.overallChange).foldl streakRunStep (none, 0)).1,
        ((h.reverse.map PatchEntry.overallChange).foldl streakRunStep (none, 0)).2⟩ := by
  unfold calculateStats
  split
  · rename_i he
    have hnil : h = [] := List.isEmpty_iff.mp he
    subst hnil
    rfl
  · simp only []
    rw [foldl_statsStep_map]
    exact congrArg (fun p => (⟨p.1, p.2⟩ : CurrentStreak))
      (statsFold_run (h.reverse.map PatchEntry.overallChange) statsInit)

/-- C2.  Scenario: for the chronological sequence
`[nerf, nerf, mixed, buff]` (stored newest-first), the recomputed
per-entry streaks are `[1, 2, 1, 1]` in chronological order and the
stats give `currentStreak = {buff, 1}`. -/
theorem streaks_scenario_nerf_nerf_mixed_buff :
    (calculateStreaks [mkEntry 4 ChangeType.buff, mkEntry 3 ChangeType.mixed,
        mkEntry 2 ChangeType.nerf, mkEntry 1 ChangeType.nerf]).reverse.map
        PatchEntry.streak = [1, 2, 1, 1] ∧
      (calculateStats [mkEntry 4 ChangeType.buff, mkEntry 3 ChangeType.mixed,
        mkEntry 2 ChangeType.nerf, mkEntry 1 ChangeType.nerf]).currentStreak
        = ⟨some ChangeType.buff, 1⟩ := by
  decide

lemma streaksGo_map_erase (l : List PatchEntry) :
    ∀ t n, (streaksGo t n l).map eraseStreak = l.map eraseStreak := by
  induction l with
  | nil => intro t n; rfl
  | cons p ps ih =>
    intro t n
    simp only [streaksGo]
    rcases hc : p.overallChange with _ | _ | _ <;> simp only []
    · split <;> simp [List.map_cons, ih, eraseStreak, hc]
    · split <;> simp [List.map_cons, ih, eraseStreak, hc]
    · simp [List.map_cons, ih, eraseStreak, hc]

/-- C10.  `calculateStreaks` returns a history of the same length and
order whose entries agree with the input entries on every field except
`streak`: erasing the `streak` field from input and output gives the
same list. -/
theorem calculateStreaks_frame (h : List PatchEntry) :
    (calculateStreaks h).length = h.length ∧
      (calculateStreaks h).map eraseStreak = h.map eraseStreak := by
  have hm : (calculateStreaks h).map eraseStreak = h.map eraseStreak := by
    unfold calculateStreaks
    rw [List.map_reverse, streaksGo_map_erase, List.map_reverse, List.reverse_reverse]
  refine ⟨?_, hm⟩
  have := congrArg List.length hm
  simpa using this

/-- The dedup loop of `fixDuplicatePatches`
(scripts/fix-duplicate-patches.ts, lines 33-44): the JS `Set` of seen
patch ids is modelled as a list; an entry whose id was already seen is
dropped, otherwise it is kept and its id recorded. -/
def dedupGo (seen : List Nat) : List PatchEntry → List PatchEntry
  | [] => []
  | p :: ps =>
    if p.patchId ∈ seen then dedupGo seen ps
    else p :: dedupGo (p.patchId :: seen) ps

/-- `fixDuplicatePatches` applied to one character's history: keep only
the first entry for each `patchId`. -/
def fixDuplicatePatches (h : List PatchEntry) : List PatchEntry := dedupGo [] h

/-- The claim's description of duplicate removal: keep the first
occurrence of each `patchId` in input order and drop every later entry
carrying an already-seen id. -/
def keepFirstOccurrence : List PatchEntry → List PatchEntry
  | [] => []
  | p :: ps =>
    p :: keepFirstOccurrence (ps.filter (fun q => q.patchId ≠ p.patchId))
termination_by l => l.length
decreasing_by
  simp only [List.length_cons]
  exact Nat.lt_succ_of_le (List.length_filter_le _ _)

/-- Duplicate detection from scripts/find-duplicate-patches.ts: ids
whose group (entries of the history sharing that `patchId`) has size
greater than one.  The `Map` of per-id counts is modelled by counting
over the id list; dedup gives the key set. -/
def duplicatePatchIds (h : List PatchEntry) : List Nat :=
  (h.map PatchEntry.patchId).dedup.filter
    (fun pid => 1 < (h.map PatchEntry.patchId).count pid)

lemma dedupGo_patchId_not_seen (l : List PatchEntry) :
    ∀ seen, ∀ q ∈ dedupGo seen l, q.patchId ∉ seen := by
  induction l with
  | nil => intro seen q hq; simp [dedupGo] at hq
  | cons p ps ih =>
    intro seen q hq
    simp only [dedupGo] at hq
    split at hq
    · exact ih seen q hq
    · rcases List.mem_cons.mp hq with hq | hq
      · subst hq; assumption
      · have := ih (p.patchId :: seen) q hq
        exact fun hmem => this (List.mem_cons_of_mem _ hmem)

lemma dedupGo_nodup (l : List PatchEntry) :
    ∀ seen, ((dedupGo seen l).map PatchEntry.patchId).Nodup := by
  induction l with
  | nil => intro seen; simp [dedupGo]
  | cons p ps ih =>
    intro seen
    simp only [dedupGo]
    split
    · exact ih seen
    · simp only [List.map_cons, List.nodup_cons]
      refine ⟨?_, ih _⟩
      intro hmem
      rcases List.mem_map.mp hmem with ⟨q, hq, hqid⟩
      have := dedupGo_patchId_not_seen ps (p.patchId :: seen) q hq
      exact this (by rw [hqid]; exact List.mem_cons_self _ _)

lemma dedupGo_idem (l : List PatchEntry) :
    ∀ seen, dedupGo seen (dedupGo seen l) = dedupGo seen l := by
  induction l with
  | nil => intro seen; rfl
  | cons p ps ih =>
    intro seen
    simp only [dedupGo]
    split
    · exact ih seen
    · rename_i hns
      simp only [dedupGo, if_neg hns]
      rw [ih (p.patchId :: seen)]

lemma dedupGo_eq_keepFirst (l : List PatchEntry) :
    ∀ seen, dedupGo seen l
      = keepFirstOccurrence (l.filter (fun p => p.patchId ∉ seen)) := by
  induction l with
  | nil => intro seen; simp [dedupGo, keepFirstOccurrence]
  | cons p ps ih =>
    intro seen
    by_cases hp : p.patchId ∈ seen
    · rw [dedupGo, if_pos hp, List.filter_cons_of_neg (by simpa using hp), ih]
    · rw [dedupGo, if_neg hp, List.filter_cons_of_pos (by simpa using hp),
        keepFirstOccurrence, ih (p.patchId :: seen)]
      congr 1
      rw [List.filter_filter]
      congr 1
      apply List.filter_congr
      intro q hq
      simp [List.mem_cons, not_or, and_comm]

/-- C7.  Removing duplicate patch entries keeps exactly the first
occurrence of each `patchId` in input order; the result has pairwise
distinct ids, re-running the removal changes nothing, and duplicate
detection on the result reports no duplicated id. -/
theorem fixDuplicatePatches_spec (h : List PatchEntry) :
    fixDuplicatePatches h = keepFirstOccurrence h ∧
      ((fixDuplicatePatches h).map PatchEntry.patchId).Nodup ∧
      fixDuplicatePatches (fixDuplicatePatches h) = fixDuplicatePatches h ∧
      duplicatePatchIds (fixDuplicatePatches h) = [] := by
  refine ⟨?_, dedupGo_nodup h [], dedupGo_idem h [], ?_⟩
  · rw [fixDuplicatePatches, dedupGo_eq_keepFirst]
    congr 1
    apply List.filter_eq_self.mpr
    intro q hq
    simp
  · have hnd := dedupGo_nodup h []
    unfold fixDuplicatePatches
    rw [duplicatePatchIds]
    apply List.filter_eq_nil_iff.mpr
    intro pid hpid
    have := List.nodup_iff_count_le_one.mp hnd pid
    simp only [decide_eq_true_eq]
    omega

/-- JS `toLowerCase`, character by character.  All keyword and sentinel
comparisons in the pipeline involve ASCII or Korean characters, on which
ASCII lowercasing agrees with the JS Unicode lowercasing. -/
def toLowerCaseStr (s : Str) : Str := s.map Char.toLower

/-- JS truthiness of a nullable string: `null` and `""` are falsy. -/
def strTruthy : Option Str → Bool
  | none => false
  | some s => !s.isEmpty

/-- JS `String.prototype.includes`: `needle` occurs contiguously in the
haystack. -/
def isInfixOfStr (needle : Str) : Str → Bool
  | [] => needle.isEmpty
  | c :: cs => needle.isPrefixOf (c :: cs) || isInfixOfStr needle cs

/-- `NERF_KEYWORDS` (scripts/parse-balance-changes.ts, lines 332-364). -/
def NERF_KEYWORDS : List Str :=
  ["reducing", "reduce", "decreased", "decrease", "lowering", "lower",
   "nerfing", "nerf", "weaken", "weakening", "toning down", "tune down",
   "too strong", "very strong", "overperforming", "high win rate",
   "high pick rate", "dominant", "oppressive", "keep in check",
   "너프", "하향", "감소", "약화", "줄이", "낮추", "너무 강", "강력해서",
   "승률이 높", "픽률이 높", "지배적"].map String.toList

/-- `BUFF_KEYWORDS` (scripts/parse-balance-changes.ts, lines 366-397). -/
def BUFF_KEYWORDS : List Str :=
  ["buffing", "buff", "increasing", "increase", "improving", "improve",
   "enhancing", "enhance", "strengthening", "strengthen", "boosting",
   "boost", "underperforming", "low win rate", "low pick rate", "weak",
   "struggling", "needs help", "giving more",
   "버프", "상향", "증가", "강화", "올리", "높이", "약해서", "승률이 낮",
   "픽률이 낮", "부족", "개선"].map String.toList

/-- `extractIntentFromComment` (scripts/parse-balance-changes.ts, lines
399-409): lowercase the comment, test it for substrings from the two
keyword lists, and return a direction only when exactly one list
matches.  A null or empty (falsy) comment yields no intent. -/
def extractIntentFromComment (comment : Option Str) : Option ChangeType :=
  match comment with
  | none => none
  | some c =>
    if c.isEmpty then none
    else
      let commentLower := toLowerCaseStr c
      let hasNerfIntent :=
        NERF_KEYWORDS.any fun k => isInfixOfStr (toLowerCaseStr k) commentLower
      let hasBuffIntent :=
        BUFF_KEYWORDS.any fun k => isInfixOfStr (toLowerCaseStr k) commentLower
      if hasNerfIntent && !hasBuffIntent then some ChangeType.nerf
      else if hasBuffIntent && !hasNerfIntent then some ChangeType.buff
      else none

/-- `determineOverallChange` (scripts/parse-balance-changes.ts, lines
323-330): at least one buff and no nerf gives buff, at least one nerf
and no buff gives nerf, anything else is mixed. -/
def determineOverallChange (changes : List Change) : ChangeType :=
  let buffCount := (changes.filter fun c => c.changeType = ChangeType.buff).length
  let nerfCount := (changes.filter fun c => c.changeType = ChangeType.nerf).length
  if buffCount > 0 ∧ nerfCount = 0 then ChangeType.buff
  else if nerfCount > 0 ∧ buffCount = 0 then ChangeType.nerf
  else ChangeType.mixed

/-- `determineOverallChangeWithComment` (scripts/parse-balance-changes.ts,
lines 411-418): the comment's keyword sentiment is consulted only when
the change-list verdict is mixed and the comment is truthy. -/
def determineOverallChangeWithComment (changes : List Change)
    (comment : Option Str) : ChangeType :=
  let result := determineOverallChange changes
  if result = ChangeType.mixed ∧ strTruthy comment then
    match extractIntentFromComment comment with
    | some intent => intent
    | none => result
  else result

/-- The claim's description of the comment sentiment: a direction only
when the comment matches exactly one of the two keyword sets; matching
both or neither gives no override.  (Definition written from the claim,
for comparison with the code's `extractIntentFromComment`.) -/
def commentSentiment (comment : Option Str) : Option ChangeType :=
  match comment with
  | none => none
  | some c =>
    let lower := toLowerCaseStr c
    let nerfMatch := NERF_KEYWORDS.any fun k => isInfixOfStr (toLowerCaseStr k) lower
    let buffMatch := BUFF_KEYWORDS.any fun k => isInfixOfStr (toLowerCaseStr k) lower
    if nerfMatch && buffMatch then none
    else if !nerfMatch && !buffMatch then none
    else if nerfMatch then some ChangeType.nerf
    else some ChangeType.buff

/-- The claim's description of the per-patch overall direction.
(Definition written from the claim, for comparison with the code's
`determineOverallChangeWithComment`.) -/
def specOverallChange (changes : List Change) (comment : Option Str) : ChangeType :=
  let hasBuff := changes.any fun c => c.changeType = ChangeType.buff
  let hasNerf := changes.any fun c => c.changeType = ChangeType.nerf
  if hasBuff ∧ ¬hasNerf then ChangeType.buff
  else if hasNerf ∧ ¬hasBuff then ChangeType.nerf
  else
    match commentSentiment comment with
    | some intent => intent
    | none => ChangeType.mixed

lemma filter_changeType_len_zero (changes : List Change) (t : ChangeType) :
    (changes.filter fun c => c.changeType = t).length = 0
      ↔ ¬ (changes.any fun c => c.changeType = t) = true := by
  simp [List.length_eq_zero, List.filter_eq_nil_iff, List.any_eq_true]

lemma filter_changeType_len_pos (changes : List Change) (t : ChangeType) :
    0 < (changes.filter fun c => c.changeType = t).length
      ↔ (changes.any fun c => c.changeType = t) = true := by
  rw [Nat.pos_iff_ne_zero, Ne, filter_changeType_len_zero]
  exact not_not

lemma determineOverallChange_cases (changes : List Change) :
    determineOverallChange changes
      = if (changes.any fun c => c.changeType = ChangeType.buff)
            ∧ ¬ (changes.any fun c => c.changeType = ChangeType.nerf)
        then ChangeType.buff
        else if (changes.any fun c => c.changeType = ChangeType.nerf)
            ∧ ¬ (changes.any fun c => c.changeType = ChangeType.buff)
        then ChangeType.nerf
        else ChangeType.mixed := by
  unfold determineOverallChange
  simp only [gt_iff_lt, filter_changeType_len_pos, filter_changeType_len_zero,
    Bool.coe_iff_coe]

lemma mixed_comment_resolution (comment : Option Str) :
    (if strTruthy comment = true then
        match extractIntentFromComment comment with
        | some intent => intent
        | none => ChangeType.mixed
      else ChangeType.mixed)
      = match commentSentiment comment with
        | some intent => intent
        | none => ChangeType.mixed := by
  cases comment with
  | none => rfl
  | some c =>
    by_cases hc : c.isEmpty
    · have hnil : c = [] := List.isEmpty_iff.mp hc
      subst hnil
      decide
    · simp only [strTruthy, hc, Bool.not_false, if_true,
        extractIntentFromComment, if_neg hc, commentSentiment]
      cases hN : (NERF_KEYWORDS.any fun k =>
            isInfixOfStr (toLowerCaseStr k) (toLowerCaseStr c)) <;>
        cases hB : (BUFF_KEYWORDS.any fun k =>
            isInfixOfStr (toLowerCaseStr k) (toLowerCaseStr c)) <;>
        simp [hN, hB]

/-- C6.  The per-patch direction is buff when there is at least one
buff-typed change and no nerf-typed one, nerf in the symmetric case, and
otherwise mixed, where only a mixed verdict can be overridden by the
comment sentiment, itself non-null only when exactly one keyword set
matches the comment. -/
theorem determineOverallChangeWithComment_correct (changes : List Change)
    (comment : Option Str) :
    determineOverallChangeWithComment changes comment
      = specOverallChange changes comment := by
  unfold determineOverallChangeWithComment specOverallChange
  rw [determineOverallChange_cases]
  by_cases h1 : (changes.any fun c => c.changeType = ChangeType.buff) = true
      ∧ ¬ (changes.any fun c => c.changeType = ChangeType.nerf) = true
  · simp [h1]
  · by_cases h2 : (changes.any fun c => c.changeType = ChangeType.nerf) = true
        ∧ ¬ (changes.any fun c => c.changeType = ChangeType.buff) = true
    · simp [h1, h2]
    · simp only [h1, h2, if_false, iff_false]
      rw [← mixed_comment_resolution comment]
      simp

/-- The character class of the JS regexp `\s` (ECMAScript WhiteSpace and
LineTerminator code points), by code point. -/
def isWs (c : Char) : Bool :=
  c.toNat = 32 || c.toNat = 9 || c.toNat = 10 || c.toNat = 11 ||
  c.toNat = 12 || c.toNat = 13 || c.toNat = 0xa0 || c.toNat = 0x1680 ||
  (0x2000 ≤ c.toNat && c.toNat ≤ 0x200a) || c.toNat = 0x2028 ||
  c.toNat = 0x2029 || c.toNat = 0x202f || c.toNat = 0x205f ||
  c.toNat = 0x3000 || c.toNat = 0xfeff

/-- The character class of the JS regexp `\d`: the ASCII digits. -/
def isDigitChar (c : Char) : Bool := 48 ≤ c.toNat && c.toNat ≤ 57

/-- Scan loop of `replaceAll`, structurally recursive on a fuel that
starts at the string length; every step consumes at least one character,
so the fuel never runs out on the strings it is called with. -/
def replaceAllGo (pat repl : Str) : Nat → Str → Str
  | _, [] => []
  | 0, s => s
  | fuel + 1, c :: cs =>
    if pat.isEmpty then c :: cs
    else if pat.isPrefixOf (c :: cs) then
      repl ++ replaceAllGo pat repl fuel (cs.drop (pat.length - 1))
    else c :: replaceAllGo pat repl fuel cs

/-- JS `str.replace(/pat/g, repl)` for a literal pattern `pat`: replace
leftmost non-overlapping occurrences, never rescanning a replacement.
The patterns in the pipeline are all nonempty; the empty pattern is
mapped to the identity. -/
def replaceAll (pat repl s : Str) : Str := replaceAllGo pat repl s.length s

/-- Scan loop of `collapseWs`, structurally recursive on a fuel that
starts at the string length. -/
def collapseWsGo : Nat → Str → Str
  | _, [] => []
  | 0, s => s
  | fuel + 1, c :: cs =>
    if isWs c then ' ' :: collapseWsGo fuel (cs.dropWhile isWs)
    else c :: collapseWsGo fuel cs

/-- JS `str.replace(/\s+/g, ' ')`: each maximal whitespace run becomes a
single space. -/
def collapseWs (s : Str) : Str := collapseWsGo s.length s

/-- Removal of the trailing whitespace run (the tail half of JS
`String.prototype.trim`). -/
def trimEnd : Str → Str
  | [] => []
  | c :: cs =>
    let r := trimEnd cs
    if r.isEmpty then (if isWs c then [] else [c]) else c :: r

/-- JS `String.prototype.trim`: remove leading and trailing whitespace. -/
def trimWs (s : Str) : Str := trimEnd (s.dropWhile isWs)

/-- `cleanHtmlEntities` (scripts/parse-balance-changes.ts, lines
197-205): decode the four HTML entity artifacts, collapse whitespace
runs to single spaces, and trim. -/
def cleanHtmlEntities (s : Str) : Str :=
  trimWs (collapseWs (replaceAll "&gt;".toList ">".toList
    (replaceAll "&lt;".toList "<".toList
      (replaceAll "&amp;".toList "&".toList
        (replaceAll "&nbsp;".toList " ".toList s)))))

/-- A string on which `cleanHtmlEntities` is a no-op. -/
abbrev cleanFixed (s : Str) : Prop := cleanHtmlEntities s = s

/-- The scanning loop of `findFirstNumberIndexOutsideParens`
(scripts/parse-balance-changes.ts, lines 180-189), tracking parenthesis
depth; `none` models the JS return value `-1`.  Depth decrement uses
truncated subtraction, matching `Math.max(0, depth - 1)`. -/
def findGo (depth : Nat) : Str → Option Nat
  | [] => none
  | c :: cs =>
    if c = '(' then (findGo (depth + 1) cs).map (· + 1)
    else if c = ')' then (findGo (depth - 1) cs).map (· + 1)
    else if depth = 0 ∧ isDigitChar c then some 0
    else (findGo depth cs).map (· + 1)

/-- `findFirstNumberIndexOutsideParens`: index of the first digit not
inside parentheses, if any. -/
def findFirstNumberIndexOutsideParens (s : Str) : Option Nat := findGo 0 s

/-- `startsWithNumber` (scripts/parse-balance-changes.ts, lines
191-194): `/^\d/.test(str.trim())`. -/
def startsWithNumber (s : Str) : Bool :=
  match trimWs s with
  | [] => false
  | c :: _ => isDigitChar c

/-- Result of `splitAtFirstNumber`: the qualifier text before the first
number (`pre`, the source's `prefix` field) and the number-leading
remainder (`value`). -/
structure SplitNum where
  pre : Str
  value : Str
deriving DecidableEq, Repr

/-- `splitAtFirstNumber` (scripts/parse-balance-changes.ts, lines
208-216): clean, find the first digit outside parentheses, and split
there; `numIndex <= 0` keeps the cleaned string whole. -/
def splitAtFirstNumber (s : Str) : SplitNum :=
  let cleaned := cleanHtmlEntities s
  match findFirstNumberIndexOutsideParens cleaned with
  | none => ⟨[], cleaned⟩
  | some 0 => ⟨[], cleaned⟩
  | some (n + 1) => ⟨trimWs (cleaned.take (n + 1)), trimWs (cleaned.drop (n + 1))⟩

/-- `determineChangeCategory` (scripts/parse-balance-changes.ts, lines
219-238): added/removed sentinels are checked on the cleaned lowercased
strings, then the numeric/mechanic/unknown split is decided by whether
the (raw) arguments start with a digit. -/
def determineChangeCategory (before after : Str) : ChangeCategory :=
  let beforeClean := toLowerCaseStr (cleanHtmlEntities before)
  let afterClean := toLowerCaseStr (cleanHtmlEntities after)
  if beforeClean = [] ∨ beforeClean = "없음".toList ∨ beforeClean = "-".toList
      ∨ beforeClean = "x".toList then ChangeCategory.added
  else if afterClean = [] ∨ afterClean = "삭제".toList ∨ afterClean = "없음".toList
      ∨ afterClean = "-".toList then ChangeCategory.removed
  else if startsWithNumber before ∧ startsWithNumber after then ChangeCategory.numeric
  else if ¬ startsWithNumber before ∧ ¬ startsWithNumber after then ChangeCategory.mechanic
  else ChangeCategory.unknown

/-- Output record of `processChange`. -/
structure ProcessedChange where
  stat : Str
  before : Str
  after : Str
  changeCategory : ChangeCategory
deriving DecidableEq, Repr

/-- `processChange` (scripts/parse-balance-changes.ts, lines 241-271):
clean the three strings; if `before` has qualifier text ahead of its
first number, move it onto `stat` and keep the numeric remainder; for
`after`, keep only its numeric remainder (its qualifier is discarded);
finally categorize. -/
def processChange (stat before after : Str) : ProcessedChange :=
  let statC := cleanHtmlEntities stat
  let beforeC := cleanHtmlEntities before
  let afterC := cleanHtmlEntities after
  let beforeSplit := splitAtFirstNumber beforeC
  let afterSplit := splitAtFirstNumber afterC
  let newStat :=
    if beforeSplit.pre ≠ [] then trimWs (statC ++ ' ' :: beforeSplit.pre) else statC
  let newBefore := if beforeSplit.pre ≠ [] then beforeSplit.value else beforeC
  let newAfter :=
    if afterSplit.pre ≠ [] ∧ afterSplit.value ≠ [] then afterSplit.value else afterC
  { stat := newStat, before := newBefore, after := newAfter,
    changeCategory := determineChangeCategory newBefore newAfter }

/-- The claim's category precedence, stated for inputs that are already
cleaned: the added/removed sentinel tests read the lowercased strings,
then the digit tests split numeric/mechanic/unknown.  (Definition
written from the claim, for comparison with `determineChangeCategory`.) -/
def specChangeCategory (before after : Str) : ChangeCategory :=
  let b := toLowerCaseStr before
  let a := toLowerCaseStr after
  if b = [] ∨ b = "없음".toList ∨ b = "-".toList ∨ b = "x".toList then
    ChangeCategory.added
  else if a = [] ∨ a = "삭제".toList ∨ a = "없음".toList ∨ a = "-".toList then
    ChangeCategory.removed
  else if startsWithNumber before ∧ startsWithNumber after then ChangeCategory.numeric
  else if ¬ startsWithNumber before ∧ ¬ startsWithNumber after then ChangeCategory.mechanic
  else ChangeCategory.unknown

/-- C4.  On cleaned inputs (fixed points of `cleanHtmlEntities`), the
category decision follows exactly the claimed precedence: added, then
removed, then numeric/mechanic by leading digits, else unknown. -/
theorem determineChangeCategory_spec (before after : Str)
    (hb : cleanFixed before) (ha : cleanFixed after) :
    determineChangeCategory before after = specChangeCategory before after := by
  unfold determineChangeCategory specChangeCategory
  rw [hb, ha]

/-- Witness for C4 at `before = "없음"`, `after = "10"` (both cleaned):
the category is `added`. -/
theorem determineChangeCategory_spec_witness :
    cleanFixed "없음".toList ∧ cleanFixed "10".toList ∧
      determineChangeCategory "없음".toList "10".toList = ChangeCategory.added :=
  ⟨by decide, by decide,
    (determineChangeCategory_spec "없음".toList "10".toList (by decide)
        (by decide)).trans (by decide)⟩

/-- Counterexample to C3 as stated: on the triple
`("&amp;nbsp;", "1", "2")`, the first pass rewrites the stat to
`"&nbsp;"` (decoding only `&amp;`), and the second pass erases it to
`""` — `processChange` applied to its own output differs from that
output. -/
theorem processChange_not_idempotent :
    processChange
        (processChange "&amp;nbsp;".toList "1".toList "2".toList).stat
        (processChange "&amp;nbsp;".toList "1".toList "2".toList).before
        (processChange "&amp;nbsp;".toList "1".toList "2".toList).after
      ≠ processChange "&amp;nbsp;".toList "1".toList "2".toList := by
  decide

lemma not_isWs_of_isDigitChar {c : Char} (h : isDigitChar c = true) :
    isWs c = false := by
  cases hw : isWs c
  · rfl
  · exfalso
    simp only [isDigitChar, Bool.and_eq_true, decide_eq_true_eq] at h
    simp only [isWs, Bool.or_eq_true, Bool.and_eq_true, decide_eq_true_eq] at hw
    omega

lemma findGo_some_digit (s : Str) :
    ∀ depth n, findGo depth s = some n →
      ∃ d t, s.drop n = d :: t ∧ isDigitChar d = true := by
  induction s with
  | nil => intro depth n h; simp [findGo] at h
  | cons c cs ih =>
    intro depth n h
    simp only [findGo] at h
    split_ifs at h with h1 h2 h3
    · rcases Option.map_eq_some'.mp h with ⟨m, hm, rfl⟩
      rcases ih (depth + 1) m hm with ⟨d, t, hdt, hd⟩
      exact ⟨d, t, by simpa using hdt, hd⟩
    · rcases Option.map_eq_some'.mp h with ⟨m, hm, rfl⟩
      rcases ih (depth - 1) m hm with ⟨d, t, hdt, hd⟩
      exact ⟨d, t, by simpa using hdt, hd⟩
    · injection h with h0
      subst h0
      exact ⟨c, cs, rfl, h3.2⟩
    · rcases Option.map_eq_some'.mp h with ⟨m, hm, rfl⟩
      rcases ih depth m hm with ⟨d, t, hdt, hd⟩
      exact ⟨d, t, by simpa using hdt, hd⟩

lemma trimEnd_cons_of_not_ws (c : Char) (cs : Str) (h : isWs c = false) :
    ∃ t, trimEnd (c :: cs) = c :: t := by
  simp only [trimEnd]
  by_cases hr : (trimEnd cs).isEmpty
  · rw [if_pos hr, if_neg (by simp [h])]
    exact ⟨[], rfl⟩
  · rw [if_neg hr]
    exact ⟨trimEnd cs, rfl⟩

lemma trimWs_cons_of_not_ws (c : Char) (cs : Str) (h : isWs c = false) :
    ∃ t, trimWs (c :: cs) = c :: t := by
  unfold trimWs
  rw [List.dropWhile_cons_of_neg (by simp [h])]
  exact trimEnd_cons_of_not_ws c cs h

lemma findGo_cons_digit (d : Char) (t : Str) (hd : isDigitChar d = true) :
    findFirstNumberIndexOutsideParens (d :: t) = some 0 := by
  have h1 : d ≠ '(' := by
    intro he; rw [he] at hd; exact absurd hd (by decide)
  have h2 : d ≠ ')' := by
    intro he; rw [he] at hd; exact absurd hd (by decide)
  unfold findFirstNumberIndexOutsideParens
  simp [findGo, h1, h2, hd]

lemma splitAtFirstNumber_value_stable (s : Str)
    (h : cleanFixed ((splitAtFirstNumber s).value)) :
    splitAtFirstNumber ((splitAtFirstNumber s).value)
      = ⟨[], (splitAtFirstNumber s).value⟩ := by
  rcases hf : findFirstNumberIndexOutsideParens (cleanHtmlEntities s) with _ | n
  · have hv : (splitAtFirstNumber s).value = cleanHtmlEntities s := by
      simp only [splitAtFirstNumber, hf]
    rw [hv] at h ⊢
    simp only [splitAtFirstNumber, h, hf]
  · cases n with
    | zero =>
      have hv : (splitAtFirstNumber s).value = cleanHtmlEntities s := by
        simp only [splitAtFirstNumber, hf]
      rw [hv] at h ⊢
      simp only [splitAtFirstNumber, h, hf]
    | succ m =>
      have hv : (splitAtFirstNumber s).value
          = trimWs ((cleanHtmlEntities s).drop (m + 1)) := by
        simp only [splitAtFirstNumber, hf]
      obtain ⟨d, t, hdt, hd⟩ :=
        findGo_some_digit (cleanHtmlEntities s) 0 (m + 1) hf
      obtain ⟨t', ht'⟩ := trimWs_cons_of_not_ws d t (not_isWs_of_isDigitChar hd)
      have hv2 : (splitAtFirstNumber s).value = d :: t' := by
        rw [hv, hdt, ht']
      rw [hv2] at h ⊢
      simp only [splitAtFirstNumber, h, findGo_cons_digit d t' hd]

lemma processChange_changeCategory (stat before after : Str) :
    (processChange stat before after).changeCategory
      = determineChangeCategory (processChange stat before after).before
          (processChange stat before after).after := by
  simp only [processChange]

lemma processChange_before_of_pre_nil (stat before after : Str)
    (hpre : (splitAtFirstNumber (cleanHtmlEntities before)).pre = []) :
    (processChange stat before after).before = cleanHtmlEntities before := by
  simp only [processChange]
  rw [if_neg (by simp [hpre])]

lemma processChange_before_of_pre_ne (stat before after : Str)
    (hpre : (splitAtFirstNumber (cleanHtmlEntities before)).pre ≠ []) :
    (processChange stat before after).before
      = (splitAtFirstNumber (cleanHtmlEntities before)).value := by
  simp only [processChange]
  rw [if_pos hpre]

lemma processChange_after_of_cond (stat before after : Str)
    (hca : (splitAtFirstNumber (cleanHtmlEntities after)).pre ≠ []
      ∧ (splitAtFirstNumber (cleanHtmlEntities after)).value ≠ []) :
    (processChange stat before after).after
      = (splitAtFirstNumber (cleanHtmlEntities after)).value := by
  simp only [processChange]
  rw [if_pos hca]

lemma processChange_after_of_not_cond (stat before after : Str)
    (hca : ¬ ((splitAtFirstNumber (cleanHtmlEntities after)).pre ≠ []
      ∧ (splitAtFirstNumber (cleanHtmlEntities after)).value ≠ [])) :
    (processChange stat before after).after = cleanHtmlEntities after := by
  simp only [processChange]
  rw [if_neg hca]

lemma processChange_self (st b a : Str)
    (hst : cleanHtmlEntities st = st) (hb : cleanHtmlEntities b = b)
    (ha : cleanHtmlEntities a = a)
    (h1 : (splitAtFirstNumber b).pre = [])
    (h2 : ¬ ((splitAtFirstNumber a).pre ≠ [] ∧ (splitAtFirstNumber a).value ≠ [])) :
    processChange st b a = ⟨st, b, a, determineChangeCategory b a⟩ := by
  simp only [processChange, hst, hb, ha]
  rw [if_neg (by simp [h1]), if_neg (by simp [h1]), if_neg h2]

/-- C3 (amended).  `processChange` applied to its own output returns
that output whenever re-cleaning each of the three produced strings is a
no-op (none of them re-introduces an HTML-entity artifact the way
`"&amp;nbsp;"` collapses to `"&nbsp;"` in the counterexample). -/
theorem processChange_idempotent_of_cleanFixed (stat before after : Str)
    (hs : cleanFixed (processChange stat before after).stat)
    (hb : cleanFixed (processChange stat before after).before)
    (ha : cleanFixed (processChange stat before after).after) :
    processChange (processChange stat before after).stat
        (processChange stat before after).before
        (processChange stat before after).after
      = processChange stat before after := by
  have F1 : (splitAtFirstNumber ((processChange stat before after).before)).pre = [] := by
    by_cases hpre : (splitAtFirstNumber (cleanHtmlEntities before)).pre = []
    · rw [processChange_before_of_pre_nil stat before after hpre]
      exact hpre
    · rw [processChange_before_of_pre_ne stat before after hpre] at hb ⊢
      rw [splitAtFirstNumber_value_stable (cleanHtmlEntities before) hb]
  have F2 : ¬ ((splitAtFirstNumber ((processChange stat before after).after)).pre ≠ []
      ∧ (splitAtFirstNumber ((processChange stat before after).after)).value ≠ []) := by
    by_cases hca : (splitAtFirstNumber (cleanHtmlEntities after)).pre ≠ []
        ∧ (splitAtFirstNumber (cleanHtmlEntities after)).value ≠ []
    · rw [processChange_after_of_cond stat before after hca] at ha ⊢
      rw [splitAtFirstNumber_value_stable (cleanHtmlEntities after) ha]
      simp
    · rw [processChange_after_of_not_cond stat before after hca] at ha ⊢
      exact hca
  rw [processChange_self ((processChange stat before after).stat)
      ((processChange stat before after).before)
      ((processChange stat before after).after) hs hb ha F1 F2]
  rw [← processChange_changeCategory stat before after]

/-- Witness for the amended C3 at the triple `("", "없음", "10")`: the
output is `("", "없음", "10", added)`, each output string is clean-fixed,
and a second pass returns the output unchanged. -/
theorem processChange_idempotent_witness :
    cleanFixed (processChange ([] : Str) "없음".toList "10".toList).stat ∧
      cleanFixed (processChange ([] : Str) "없음".toList "10".toList).before ∧
      cleanFixed (processChange ([] : Str) "없음".toList "10".toList).after ∧
      processChange (processChange ([] : Str) "없음".toList "10".toList).stat
          (processChange ([] : Str) "없음".toList "10".toList).before
          (processChange ([] : Str) "없음".toList "10".toList).after
        = processChange ([] : Str) "없음".toList "10".toList :=
  ⟨by decide, by decide, by decide,
    processChange_idempotent_of_cleanFixed ([] : Str) "없음".toList "10".toList
      (by decide) (by decide) (by decide)⟩

/-- The character class of the JS regexp `[\\d.]`. -/
def isNumChar (c : Char) : Bool := isDigitChar c || c = '.'

/-- Scan loop for the maximal runs matched by `/[\\d.]+/g`, structurally
recursive on a fuel that starts at the string length. -/
def tokenizeGo : Nat → Str → List Str
  | _, [] => []
  | 0, _ => []
  | fuel + 1, c :: cs =>
    if isNumChar c then
      (c :: cs.takeWhile isNumChar) :: tokenizeGo fuel (cs.dropWhile isNumChar)
    else tokenizeGo fuel cs

/-- The substrings matched by `value.match(/[\\d.]+/g)` in
`extractNumbers` (scripts/parse-balance-changes.ts, lines 299-302). -/
def numTokens (s : Str) : List Str := tokenizeGo s.length s

/-- Value of an ASCII digit run, most significant first. -/
def digitsToNat (s : Str) : Nat := s.foldl (fun n c => n * 10 + (c.toNat - 48)) 0

/-- JS `Number(t)` for a token `t` made of digits and dots: a decimal
numeral with at most one dot and at least one digit parses to its exact
rational value; anything else (a lone or repeated dot) is `NaN`,
modelled as `none`.  JS computes in binary floating point; the embedding
idealizes the arithmetic in `ℚ`. -/
def parseNum (t : Str) : Option ℚ :=
  if t.all fun c => c ≠ '.' then some (digitsToNat t)
  else
    let ip := t.takeWhile fun c => c ≠ '.'
    let rest := t.drop (ip.length + 1)
    if rest.any fun c => c = '.' then none
    else if ip.isEmpty && rest.isEmpty then none
    else some ((digitsToNat ip : ℚ) + (digitsToNat rest : ℚ) / (10 : ℚ) ^ rest.length)

/-- `extractNumbers` (scripts/parse-balance-changes.ts, lines 299-302):
all digit-dot runs of the string, each parsed as a JS number. -/
def extractNumbers (value : Str) : List (Option ℚ) := (numTokens value).map parseNum

/-- JS `+` on numbers that may be `NaN` (`NaN` absorbs). -/
def addNum : Option ℚ → Option ℚ → Option ℚ
  | some a, some b => some (a + b)
  | some _, none => none
  | none, some _ => none
  | none, none => none

/-- JS `reduce((a, b) => a + b, 0)` over numbers that may be `NaN`. -/
def sumNums : List (Option ℚ) → Option ℚ
  | [] => some 0
  | x :: xs => addNum x (sumNums xs)

/-- Average of a JS number list (`sum / length`); `NaN` propagates. -/
def avgNums (l : List (Option ℚ)) : Option ℚ :=
  match sumNums l with
  | some s => some (s / (l.length : ℚ))
  | none => none

/-- JS `===` on numbers: false when either side is `NaN`. -/
def jsEqNum : Option ℚ → Option ℚ → Bool
  | some a, some b => a = b
  | some _, none => false
  | none, some _ => false
  | none, none => false

/-- JS `>` on numbers (`jsGtNum x y` is `x > y`): false when either side
is `NaN`. -/
def jsGtNum : Option ℚ → Option ℚ → Bool
  | some a, some b => b < a
  | some _, none => false
  | none, some _ => false
  | none, none => false

/-- `DECREASE_IS_BUFF` (scripts/parse-balance-changes.ts, lines
277-297): stat-name keywords for which a decrease is a buff. -/
def DECREASE_IS_BUFF : List Str :=
  ["쿨다운", "cooldown", "cd", "마나", "mana", "sp", "mp", "소모", "시전",
   "cast", "casting", "딜레이", "delay", "대기", "wait", "충전",
   "charge time", "선딜", "후딜"].map String.toList

/-- `determineChangeType` (scripts/parse-balance-changes.ts, lines
304-321): average the numbers on each side; no numbers on either side or
equal averages give `mixed`; otherwise the increase/decrease direction,
flipped when the stat name contains a lower-is-better keyword. -/
def determineChangeType (stat before after : Str) : ChangeType :=
  let statLower := toLowerCaseStr stat
  let beforeNums := extractNumbers before
  let afterNums := extractNumbers after
  if beforeNums.length = 0 ∨ afterNums.length = 0 then ChangeType.mixed
  else
    let beforeAvg := avgNums beforeNums
    let afterAvg := avgNums afterNums
    if jsEqNum beforeAvg afterAvg then ChangeType.mixed
    else
      let isIncrease := jsGtNum afterAvg beforeAvg
      let isDecreaseBuffStat := DECREASE_IS_BUFF.any fun k =>
        isInfixOfStr (toLowerCaseStr k) statLower
      if isDecreaseBuffStat then
        if isIncrease then ChangeType.nerf else ChangeType.buff
      else
        if isIncrease then ChangeType.buff else ChangeType.nerf

/-- The claim\'s description of the per-change direction, over the
successfully parsed numbers of each side.  (Definition written from the
claim, for comparison with `determineChangeType`.) -/
def specChangeType (stat before after : Str) : ChangeType :=
  let bs := (extractNumbers before).reduceOption
  let av := (extractNumbers after).reduceOption
  if bs = [] ∨ av = [] then ChangeType.mixed
  else
    let beforeAvg := bs.sum / (bs.length : ℚ)
    let afterAvg := av.sum / (av.length : ℚ)
    if beforeAvg = afterAvg then ChangeType.mixed
    else if DECREASE_IS_BUFF.any fun k =>
        isInfixOfStr (toLowerCaseStr k) (toLowerCaseStr stat) then
      if afterAvg > beforeAvg then ChangeType.nerf else ChangeType.buff
    else
      if afterAvg > beforeAvg then ChangeType.buff else ChangeType.nerf

lemma sumNums_of_all_some (l : List (Option ℚ)) (h : ∀ x ∈ l, x.isSome = true) :
    sumNums l = some l.reduceOption.sum := by
  induction l with
  | nil => simp [sumNums]
  | cons x xs ih =>
    obtain ⟨a, rfl⟩ := Option.isSome_iff_exists.mp (h x (List.mem_cons_self x xs))
    have ih2 := ih fun y hy => h y (List.mem_cons_of_mem _ hy)
    simp [sumNums, ih2, addNum]

lemma reduceOption_length_of_all_some (l : List (Option ℚ))
    (h : ∀ x ∈ l, x.isSome = true) : l.reduceOption.length = l.length := by
  induction l with
  | nil => simp
  | cons x xs ih =>
    obtain ⟨a, rfl⟩ := Option.isSome_iff_exists.mp (h x (List.mem_cons_self x xs))
    have ih2 := ih fun y hy => h y (List.mem_cons_of_mem _ hy)
    simp [ih2]

lemma avgNums_of_all_some (l : List (Option ℚ)) (h : ∀ x ∈ l, x.isSome = true) :
    avgNums l = some (l.reduceOption.sum / (l.reduceOption.length : ℚ)) := by
  rw [avgNums, sumNums_of_all_some l h, reduceOption_length_of_all_some l h]

/-- C5.  On inputs all of whose digit-dot runs parse as numbers, the
direction follows the claimed rule: empty sides or equal averages give
`mixed`; otherwise increase/decrease gives buff/nerf, with the sense
flipped exactly when the stat name contains a lower-is-better keyword. -/
theorem determineChangeType_spec (stat before after : Str)
    (hbp : ∀ x ∈ extractNumbers before, x.isSome = true)
    (hap : ∀ x ∈ extractNumbers after, x.isSome = true) :
    determineChangeType stat before after = specChangeType stat before after := by
  have hbl := reduceOption_length_of_all_some _ hbp
  have hal := reduceOption_length_of_all_some _ hap
  have hba := avgNums_of_all_some _ hbp
  have haa := avgNums_of_all_some _ hap
  have hb0 : ((extractNumbers before).length = 0)
      ↔ ((extractNumbers before).reduceOption = []) := by
    rw [← hbl, List.length_eq_zero]
  have ha0 : ((extractNumbers after).length = 0)
      ↔ ((extractNumbers after).reduceOption = []) := by
    rw [← hal, List.length_eq_zero]
  simp only [determineChangeType, specChangeType, hba, haa, hbl, hal]
  apply if_congr (or_congr hb0 ha0) rfl
  apply if_congr (by simp [jsEqNum]) rfl
  apply if_congr Iff.rfl
  · exact if_congr (by simp [jsGtNum]) rfl rfl
  · exact if_congr (by simp [jsGtNum]) rfl rfl

/-- Witness for C5 at stat `"쿨다운"`, `before = "8"`, `after = "6"`:
all runs parse, and the decrease in a reduce-is-buff stat is a buff. -/
theorem determineChangeType_spec_witness :
    (∀ x ∈ extractNumbers "8".toList, x.isSome = true) ∧
      (∀ x ∈ extractNumbers "6".toList, x.isSome = true) ∧
      determineChangeType "쿨다운".toList "8".toList "6".toList = ChangeType.buff :=
  ⟨by decide, by decide,
    (determineChangeType_spec "쿨다운".toList "8".toList "6".toList (by decide)
        (by decide)).trans (by
      simp +decide only [specChangeType, extractNumbers, numTokens, tokenizeGo,
        isNumChar, isDigitChar, parseNum, digitsToNat, DECREASE_IS_BUFF,
        toLowerCaseStr, isInfixOfStr, List.map, List.reduceOption, List.sum,
        List.foldl, List.foldr, List.length, List.takeWhile, List.dropWhile,
        List.all]
      norm_num
      decide)⟩

end Vibe